import Mathlib

/-!
Verification of the Blocks-mapbox block-selection subsystem.

The definitions below are a shallow embedding of the TypeScript sources:

* `SelectionStore` and its operations embed the class `SelectionStore`
  (src/unnamed/part_006).  The JavaScript `Set<string>` of selected ids is
  modelled as a `Finset String`; every mutating method of the class calls
  `this.notifyListeners()` some number of times during its body, and each such
  call invokes every subscribed listener exactly once, so a mutator is embedded
  as a function returning the new store state together with the number of
  `notifyListeners` invocations it performs (the number of notifications each
  subscriber receives from the call).
* `Storage` embeds the browser `localStorage` key-value interface used by the
  constructor and `setMode`.
* `spatialFilter` embeds the spatial-filtering effect of
  BlocksOnboardingWizard (src/unnamed/part_005, lines 229-250), with the
  possibly-throwing `turf.booleanIntersects` kept abstract as an oracle
  returning `Except` (`.error` models a thrown exception, caught by the
  effect's `try/catch`).
* `STEPS`, `next`, `back`, `goTo`, `reset` embed the `useStep` hook
  (the wizard step controller); wizard steps are the string literals of the
  TS union type `WizardStep`.
* The `Heap`/`HStore` development embeds the object identity of JavaScript
  `Set` values, to state that `getSelected()` returns a defensive copy
  (`return new Set(this.selected)`): sets live in an explicit heap of cells
  and `getSelected` allocates a fresh cell.
-/

/-- BlockId: an opaque string, the stable identity of one map polygon. -/
abbrev BlockId := String

/-- `export type SelectionMode = 'include' | 'exclude';` -/
inductive SelectionMode where
  | «include» : SelectionMode
  | «exclude» : SelectionMode
deriving DecidableEq, Repr

/-- The client-side key-value storage (`localStorage`): a partial map from
string keys to string values. -/
abbrev Storage := String → Option String

/-- `localStorage.getItem(key)` -/
def Storage.getItem (ls : Storage) (key : String) : Option String := ls key

/-- `localStorage.setItem(key, value)` -/
def Storage.setItem (ls : Storage) (key : String) (value : String) : Storage :=
  fun k => if k = key then some value else ls k

/-- The storage key `'blocks-selection-mode'` used by the store. -/
def modeKey : String := "blocks-selection-mode"

/-- State of a `SelectionStore` instance: `private selected: Set<string>` and
`private mode: SelectionMode`.  (The listener set is not part of the state
model; notification counts are returned by each operation instead.) -/
structure SelectionStore where
  selected : Finset BlockId
  mode : SelectionMode
deriving DecidableEq

namespace SelectionStore

/-- The constructor: starts with the initializers `selected = new Set()`,
`mode = 'include'`, then loads the saved mode from storage and overwrites the
default only when the saved value is exactly `'include'` or `'exclude'`. -/
def construct (ls : Storage) : SelectionStore :=
  let savedMode := Storage.getItem ls modeKey
  { selected := ∅
    mode :=
      match savedMode with
      | some "include" => SelectionMode.«include»
      | some "exclude" => SelectionMode.«exclude»
      | _ => SelectionMode.«include» }

/-- `getMode(): SelectionMode { return this.mode; }` -/
def getMode (s : SelectionStore) : SelectionMode := s.mode

/-- `setMode(mode)`: sets the mode, persists it to storage under `modeKey`,
and notifies listeners once.  Returns (new store, new storage, number of
`notifyListeners` invocations). -/
def setMode (s : SelectionStore) (ls : Storage) (m : SelectionMode) :
    SelectionStore × Storage × Nat :=
  ({ s with mode := m },
   Storage.setItem ls modeKey (match m with
     | SelectionMode.«include» => "include"
     | SelectionMode.«exclude» => "exclude"),
   1)

/-- `isSelected(id): boolean { return this.selected.has(id); }` -/
def isSelected (s : SelectionStore) (id : BlockId) : Bool :=
  decide (id ∈ s.selected)

/-- `setSelected(id, selected)`: adds or deletes `id`, then calls
`notifyListeners()` once, unconditionally. -/
def setSelected (s : SelectionStore) (id : BlockId) (b : Bool) :
    SelectionStore × Nat :=
  ((if b then { s with selected := insert id s.selected }
    else { s with selected := s.selected.erase id }), 1)

/-- `toggle(id)`: deletes `id` if present, otherwise adds it, then calls
`notifyListeners()` once. -/
def toggle (s : SelectionStore) (id : BlockId) : SelectionStore × Nat :=
  ((if id ∈ s.selected then { s with selected := s.selected.erase id }
    else { s with selected := insert id s.selected }), 1)

/-- `add(id)`: adds the id, then notifies once. -/
def add (s : SelectionStore) (id : BlockId) : SelectionStore × Nat :=
  ({ s with selected := insert id s.selected }, 1)

/-- `selectAll(ids)`: `ids.forEach(id => this.selected.add(id))`, then
notifies once. -/
def selectAll (s : SelectionStore) (ids : List BlockId) : SelectionStore × Nat :=
  ({ s with selected := ids.foldl (fun acc id => insert id acc) s.selected }, 1)

/-- `clearAll()`: `this.selected.clear()`, then notifies once,
unconditionally. -/
def clearAll (s : SelectionStore) : SelectionStore × Nat :=
  ({ s with selected := ∅ }, 1)

/-- `getSelected(): Set<string> { return new Set(this.selected); }` — as a
value, the returned set's contents. -/
def getSelected (s : SelectionStore) : Finset BlockId := s.selected

/-- `invert(allIds)`: builds a fresh set containing every id of `allIds` not
currently selected, replaces the selection with it, and notifies once. -/
def invert (s : SelectionStore) (allIds : List BlockId) : SelectionStore × Nat :=
  ({ s with selected :=
      allIds.foldl (fun acc id => if id ∈ s.selected then acc else insert id acc) ∅ },
   1)

end SelectionStore

/-- C1: toggling BlockId X flips `isSelected(X)` and leaves `isSelected(Y)`
unchanged for every other id Y; starting from selection {A, B},
`toggle("C")` yields exactly {A, B, C}. -/
theorem toggle_single_feature_isolation (s : SelectionStore) (x : BlockId) :
    (SelectionStore.isSelected (SelectionStore.toggle s x).1 x =
        !SelectionStore.isSelected s x) ∧
    (∀ y : BlockId, y ≠ x →
      SelectionStore.isSelected (SelectionStore.toggle s x).1 y =
        SelectionStore.isSelected s y) := by
  constructor
  · by_cases hx : x ∈ s.selected <;>
      simp [SelectionStore.toggle, SelectionStore.isSelected, hx]
  · intro y hyx
    by_cases hx : x ∈ s.selected <;>
      simp [SelectionStore.toggle, SelectionStore.isSelected, hx,
        Finset.mem_erase, Finset.mem_insert, hyx]

/-- Witness for C1: from selection {A, B}, `toggle("C")` makes C selected,
leaves A and B selected, and the resulting selection is exactly {A, B, C}. -/
theorem toggle_single_feature_isolation_witness :
    (SelectionStore.isSelected
        (SelectionStore.toggle ⟨{"A", "B"}, SelectionMode.«include»⟩ "C").1 "C" =
      true) ∧
    (SelectionStore.isSelected
        (SelectionStore.toggle ⟨{"A", "B"}, SelectionMode.«include»⟩ "C").1 "A" =
      SelectionStore.isSelected ⟨{"A", "B"}, SelectionMode.«include»⟩ "A") ∧
    (SelectionStore.toggle ⟨{"A", "B"}, SelectionMode.«include»⟩ "C").1.selected =
      ({"A", "B", "C"} : Finset BlockId) := by
  refine ⟨?_, ?_, ?_⟩
  · have h := (toggle_single_feature_isolation
      ⟨{"A", "B"}, SelectionMode.«include»⟩ "C").1
    rw [h]; decide
  · exact (toggle_single_feature_isolation
      ⟨{"A", "B"}, SelectionMode.«include»⟩ "C").2 "A" (by decide)
  · decide

/-- Folding `insert` over a list, starting from `init`, yields the union of
`init` with the list's elements (the embedding of `ids.forEach(id =>
set.add(id))`). -/
theorem foldl_insert_eq_union (ids : List BlockId) (init : Finset BlockId) :
    ids.foldl (fun acc id => insert id acc) init = init ∪ ids.toFinset := by
  induction ids generalizing init with
  | nil => simp
  | cons a tl ih =>
      simp only [List.foldl_cons, List.toFinset_cons, ih]
      ext x
      simp [Finset.mem_union, Finset.mem_insert]

/-- Counterexample for C2: `selectAll` does not replace the selection.  From
selection {A}, `selectAll(["B"])` leaves A selected, so the result is not
exactly the deduplicated candidate list {B}. -/
theorem selectAll_not_replace_counterexample :
    (SelectionStore.selectAll ⟨{"A"}, SelectionMode.«include»⟩ ["B"]).1.selected ≠
      ({"B"} : Finset BlockId) := by
  decide

/-- C2 amended: `selectAll(candidateIds)` adds the (deduplicated) candidate
ids to the existing selection — afterwards the selection equals the union of
the prior selection with the candidate ids — and observers are notified
once. -/
theorem selectAll_union (s : SelectionStore) (ids : List BlockId) :
    (SelectionStore.selectAll s ids).1.selected = s.selected ∪ ids.toFinset ∧
    (SelectionStore.selectAll s ids).2 = 1 := by
  exact ⟨foldl_insert_eq_union ids s.selected, rfl⟩

/-- Counterexample for C3: `clearAll()` on an already-empty store still
notifies subscribers (once), not zero times as claimed. -/
theorem clearAll_empty_notifies_counterexample :
    (SelectionStore.clearAll ⟨∅, SelectionMode.«include»⟩).2 ≠ 0 := by
  decide

/-- C3 amended: `clearAll()` empties the selection set and notifies
subscribers exactly once on every call, whether or not the set was already
empty. -/
theorem clearAll_empties_notifies_once (s : SelectionStore) :
    (SelectionStore.clearAll s).1.selected = ∅ ∧
    (SelectionStore.clearAll s).2 = 1 := ⟨rfl, rfl⟩

/-- Counterexample for C4: `setSelected("A", true)` on a store whose
selection already contains A (membership unchanged) still notifies
subscribers, not zero times as claimed. -/
theorem setSelected_idempotent_notifies_counterexample :
    (SelectionStore.setSelected ⟨{"A"}, SelectionMode.«include»⟩ "A" true).2 ≠ 0 := by
  decide

/-- C4 amended: `setSelected(id, b)` sets membership to `b` for exactly the
one id (every other id's membership is unchanged) and notifies observers
exactly once on every call, whether or not membership changed. -/
theorem setSelected_sets_one_id (s : SelectionStore) (id : BlockId) (b : Bool) :
    (SelectionStore.isSelected (SelectionStore.setSelected s id b).1 id = b) ∧
    (∀ y : BlockId, y ≠ id →
      SelectionStore.isSelected (SelectionStore.setSelected s id b).1 y =
        SelectionStore.isSelected s y) ∧
    (SelectionStore.setSelected s id b).2 = 1 := by
  refine ⟨?_, ?_, rfl⟩
  · cases b <;> simp [SelectionStore.setSelected, SelectionStore.isSelected]
  · intro y hy
    cases b <;>
      simp [SelectionStore.setSelected, SelectionStore.isSelected,
        Finset.mem_erase, Finset.mem_insert, hy]

/-- Witness for C4 (amended): at `setSelected("A", true)` on the empty store,
A becomes selected, B's membership is unchanged, one notification. -/
theorem setSelected_sets_one_id_witness :
    (SelectionStore.isSelected
        (SelectionStore.setSelected ⟨∅, SelectionMode.«include»⟩ "A" true).1 "A" =
      true) ∧
    (SelectionStore.isSelected
        (SelectionStore.setSelected ⟨∅, SelectionMode.«include»⟩ "A" true).1 "B" =
      SelectionStore.isSelected ⟨∅, SelectionMode.«include»⟩ "B") ∧
    (SelectionStore.setSelected ⟨∅, SelectionMode.«include»⟩ "A" true).2 = 1 := by
  refine ⟨(setSelected_sets_one_id ⟨∅, SelectionMode.«include»⟩ "A" true).1,
    (setSelected_sets_one_id ⟨∅, SelectionMode.«include»⟩ "A" true).2.1 "B" (by decide),
    (setSelected_sets_one_id ⟨∅, SelectionMode.«include»⟩ "A" true).2.2⟩

/-- The loop of `invert`: folding over `allIds`, inserting exactly the ids not
in `sel`, starting from `init`, yields `init ∪ (allIds.toFinset \ sel)`. -/
theorem foldl_invert_eq_sdiff (allIds : List BlockId) (sel : Finset BlockId)
    (init : Finset BlockId) :
    allIds.foldl (fun acc id => if id ∈ sel then acc else insert id acc) init =
      init ∪ (allIds.toFinset \ sel) := by
  induction allIds generalizing init with
  | nil => simp
  | cons a tl ih =>
      by_cases ha : a ∈ sel
      · simp only [List.foldl_cons, if_pos ha, ih, List.toFinset_cons]
        ext x
        simp only [Finset.mem_union, Finset.mem_sdiff, Finset.mem_insert]
        constructor
        · rintro (h | ⟨h1, h2⟩)
          · exact Or.inl h
          · exact Or.inr ⟨Or.inr h1, h2⟩
        · rintro (h | ⟨h1 | h1, h2⟩)
          · exact Or.inl h
          · exact absurd (h1 ▸ ha) h2
          · exact Or.inr ⟨h1, h2⟩
      · simp only [List.foldl_cons, if_neg ha, ih, List.toFinset_cons]
        ext x
        simp only [Finset.mem_union, Finset.mem_insert, Finset.mem_sdiff]
        constructor
        · rintro (⟨h | h⟩ | ⟨h1, h2⟩)
          · exact Or.inr ⟨Or.inl h, h ▸ ha⟩
          · exact Or.inl h
          · exact Or.inr ⟨Or.inr h1, h2⟩
        · rintro (h | ⟨h1 | h1, h2⟩)
          · exact Or.inl (Or.inr h)
          · exact Or.inl (Or.inl h1)
          · exact Or.inr ⟨h1, h2⟩

/-- The selection produced by `invert(universeIds)` is the universe's id set
minus the prior selection. -/
theorem invert_selected_eq (s : SelectionStore) (universeIds : List BlockId) :
    (SelectionStore.invert s universeIds).1.selected =
      universeIds.toFinset \ s.selected := by
  simp only [SelectionStore.invert]
  rw [foldl_invert_eq_sdiff]
  simp

/-- C5: `invert(universeIds)` makes the new selection exactly the universe
minus the current selection (ids selected but absent from the universe are
dropped), and notifies once. -/
theorem invert_within_universe (s : SelectionStore) (universeIds : List BlockId) :
    (SelectionStore.invert s universeIds).1.selected =
      universeIds.toFinset \ s.selected ∧
    (SelectionStore.invert s universeIds).2 = 1 :=
  ⟨invert_selected_eq s universeIds, rfl⟩

/-- C6: mode persistence round-trip — `setMode("exclude")` followed by
constructing a fresh store over the resulting storage yields mode "exclude";
and whenever the persisted key is absent or holds anything other than
"include"/"exclude", a freshly constructed store has mode "include". -/
theorem mode_persistence_roundtrip :
    (∀ (s : SelectionStore) (ls : Storage),
      (SelectionStore.construct
          (SelectionStore.setMode s ls SelectionMode.«exclude»).2.1).getMode =
        SelectionMode.«exclude») ∧
    (∀ ls : Storage,
      (∀ v : String, Storage.getItem ls modeKey = some v →
        v ≠ "include" ∧ v ≠ "exclude") →
      (SelectionStore.construct ls).getMode = SelectionMode.«include») := by
  constructor
  · intro s ls
    simp [SelectionStore.construct, SelectionStore.getMode,
      SelectionStore.setMode, Storage.getItem, Storage.setItem]
  · intro ls h
    cases hv : Storage.getItem ls modeKey with
    | none => simp [SelectionStore.construct, SelectionStore.getMode, hv]
    | some v =>
        have hne := h v hv
        simp only [SelectionStore.construct, SelectionStore.getMode, hv]
        split
        next heq => exact absurd (Option.some.inj heq) hne.1
        next heq => exact absurd (Option.some.inj heq) hne.2
        next => rfl

/-- Witness for C6: with empty storage, a fresh store defaults to mode
"include", and after `setMode("exclude")` a fresh store over the updated
storage has mode "exclude". -/
theorem mode_persistence_roundtrip_witness :
    (SelectionStore.construct
        (SelectionStore.setMode ⟨∅, SelectionMode.«include»⟩ (fun _ => none)
          SelectionMode.«exclude»).2.1).getMode = SelectionMode.«exclude» ∧
    (SelectionStore.construct (fun _ => none)).getMode = SelectionMode.«include» :=
  ⟨mode_persistence_roundtrip.1 ⟨∅, SelectionMode.«include»⟩ (fun _ => none),
   mode_persistence_roundtrip.2 (fun _ => none)
     (fun v hv => absurd hv (by simp [Storage.getItem]))⟩

/-- C10: invert is an involution within the universe — if the current
selection is a subset of the universe's ids, two successive calls of
`invert(universeIds)` restore the original selection. -/
theorem invert_involution (s : SelectionStore) (universeIds : List BlockId)
    (h : s.selected ⊆ universeIds.toFinset) :
    (SelectionStore.invert (SelectionStore.invert s universeIds).1
        universeIds).1.selected = s.selected := by
  rw [invert_selected_eq _ universeIds, invert_selected_eq s universeIds,
    Finset.sdiff_sdiff_self_left, Finset.inter_eq_right.mpr h]

/-- Witness for C10: selection {A} over universe ["A","B"] is restored by a
double invert. -/
theorem invert_involution_witness :
    ({"A"} : Finset BlockId) ⊆ (["A", "B"] : List BlockId).toFinset ∧
    (SelectionStore.invert
        (SelectionStore.invert ⟨{"A"}, SelectionMode.«include»⟩ ["A", "B"]).1
        ["A", "B"]).1.selected = ({"A"} : Finset BlockId) :=
  ⟨by decide,
   invert_involution ⟨{"A"}, SelectionMode.«include»⟩ ["A", "B"] (by decide)⟩

/-- A block feature as queried from the map source: the promoted feature id
`feature.id`, the fallback properties `block_id` and `GEOID`, and its
geometry.  Ids are modelled as strings (the code stringifies the chosen id
with `String(blockId)`); geometry is kept abstract. -/
structure Feature (Geom : Type) where
  fid : Option String
  block_id : Option String
  GEOID : Option String
  geometry : Geom

/-- `feature.id ?? feature.properties?.block_id ?? feature.properties?.GEOID`
followed by the falsiness guard `if (!blockId) return;` (an absent id, or the
empty string, is rejected). -/
def deriveBlockId {Geom : Type} (f : Feature Geom) : Option String :=
  match f.fid.orElse (fun _ => f.block_id.orElse (fun _ => f.GEOID)) with
  | none => none
  | some s => if s = "" then none else some s

/-- The guarded intersection test: `try { return turf.booleanIntersects(g, n) }
catch (e) { return false }`.  The oracle `bi` is the abstract
`turf.booleanIntersects`; `Except.error` models a thrown exception, which the
`catch` turns into `false`. -/
def tryIntersects {Geom : Type} (bi : Geom → Geom → Except String Bool)
    (g n : Geom) : Bool :=
  match bi g n with
  | Except.ok b => b
  | Except.error _ => false

/-- One iteration of the spatial-filtering loop body
(src/unnamed/part_005, lines 232-250): derive a block id, skip the feature if
none; push the id onto `blocksToSelect` when the feature's geometry passes
the guarded intersection test against some selected neighborhood geometry. -/
def spatialStep {Geom : Type} (bi : Geom → Geom → Except String Bool)
    (boundaries : List Geom) (acc : List String) (f : Feature Geom) :
    List String :=
  match deriveBlockId f with
  | none => acc
  | some blockId =>
      if boundaries.any (fun n => tryIntersects bi f.geometry n) then
        acc ++ [blockId]
      else acc

/-- The spatial-filtering effect (src/unnamed/part_005, lines 229-250):
`features.forEach` of the loop body, accumulating `blocksToSelect` from
empty. -/
def spatialFilter {Geom : Type} (bi : Geom → Geom → Except String Bool)
    (boundaries : List Geom) (features : List (Feature Geom)) : List String :=
  features.foldl (spatialStep bi boundaries) []

/-- The guarded test succeeds exactly when the oracle returns `ok true`
(a thrown exception never yields `true`). -/
theorem tryIntersects_eq_true_iff {Geom : Type}
    (bi : Geom → Geom → Except String Bool) (g n : Geom) :
    tryIntersects bi g n = true ↔ bi g n = Except.ok true := by
  unfold tryIntersects
  cases hbi : bi g n with
  | ok b => cases b <;> simp
  | error e => simp

/-- Membership in the spatial-filter fold, generalized over the
accumulator. -/
theorem mem_spatialFilter_foldl {Geom : Type}
    (bi : Geom → Geom → Except String Bool) (boundaries : List Geom)
    (features : List (Feature Geom)) (x : String) :
    ∀ acc : List String,
      (x ∈ features.foldl (spatialStep bi boundaries) acc ↔
        x ∈ acc ∨ ∃ f ∈ features, deriveBlockId f = some x ∧
          boundaries.any (fun n => tryIntersects bi f.geometry n) = true) := by
  induction features with
  | nil => intro acc; simp
  | cons f tl ih =>
      intro acc
      simp only [List.foldl_cons]
      rw [ih]
      cases hd : deriveBlockId f with
      | none =>
          have hstep : spatialStep bi boundaries acc f = acc := by
            simp [spatialStep, hd]
          rw [hstep]
          simp only [List.mem_cons]
          constructor
          · rintro (h | ⟨g, hg, hgx⟩)
            · exact Or.inl h
            · exact Or.inr ⟨g, Or.inr hg, hgx⟩
          · rintro (h | ⟨g, hg | hg, hgx⟩)
            · exact Or.inl h
            · exact absurd hgx.1 (by rw [hg, hd]; simp)
            · exact Or.inr ⟨g, hg, hgx⟩
      | some blockId =>
          by_cases hint :
              boundaries.any (fun n => tryIntersects bi f.geometry n) = true
          · have hstep : spatialStep bi boundaries acc f = acc ++ [blockId] := by
              simp [spatialStep, hd, hint]
            rw [hstep]
            simp only [List.mem_append, List.mem_singleton, List.mem_cons,
              List.mem_nil_iff, or_false]
            constructor
            · rintro ((h | h) | ⟨g, hg, hgx⟩)
              · exact Or.inl h
              · exact Or.inr ⟨f, Or.inl rfl, by rw [hd, h], hint⟩
              · exact Or.inr ⟨g, Or.inr hg, hgx⟩
            · rintro (h | ⟨g, hg | hg, hgx⟩)
              · exact Or.inl (Or.inl h)
              · refine Or.inl (Or.inr ?_)
                rw [hg, hd] at hgx
                exact (Option.some.inj hgx.1).symm
              · exact Or.inr ⟨g, hg, hgx⟩
          · have hstep : spatialStep bi boundaries acc f = acc := by
              simp only [spatialStep, hd]
              exact if_neg hint
            rw [hstep]
            simp only [List.mem_cons]
            constructor
            · rintro (h | ⟨g, hg, hgx⟩)
              · exact Or.inl h
              · exact Or.inr ⟨g, Or.inr hg, hgx⟩
            · rintro (h | ⟨g, hg | hg, hgx⟩)
              · exact Or.inl h
              · exact absurd (hg ▸ hgx.2) hint
              · exact Or.inr ⟨g, hg, hgx⟩

/-- C7: a candidate block's id is in the spatial-filter result if and only if
some candidate feature carrying that id passes the intersection test against
at least one selected boundary (OR across boundaries), where a test whose
oracle throws is treated as non-intersecting — so bad geometry is excluded
rather than raising an error. -/
theorem spatialFilter_or_semantics {Geom : Type}
    (bi : Geom → Geom → Except String Bool) (boundaries : List Geom)
    (features : List (Feature Geom)) (id : String) :
    id ∈ spatialFilter bi boundaries features ↔
      ∃ f ∈ features, deriveBlockId f = some id ∧
        ∃ n ∈ boundaries, bi f.geometry n = Except.ok true := by
  unfold spatialFilter
  rw [mem_spatialFilter_foldl]
  simp only [List.not_mem_nil, false_or, List.any_eq_true]
  constructor
  · rintro ⟨f, hf, hfd, n, hn, hni⟩
    exact ⟨f, hf, hfd, n, hn, (tryIntersects_eq_true_iff bi f.geometry n).mp hni⟩
  · rintro ⟨f, hf, hfd, n, hn, hni⟩
    exact ⟨f, hf, hfd, n, hn, (tryIntersects_eq_true_iff bi f.geometry n).mpr hni⟩

/-- A wizard step: in the source, `type WizardStep = 'budget' | 'borough' |
'neighborhood' | 'map' | 'review'` — a union of string literals. -/
abbrev WizardStep := String

/-- `const STEPS: WizardStep[] = ['budget', 'borough', 'neighborhood', 'map',
'review'];` -/
def STEPS : List WizardStep := ["budget", "borough", "neighborhood", "map", "review"]

/-- JavaScript `Array.prototype.indexOf`: index of the first occurrence, or
-1 when the element is absent. -/
def jsIndexOf (l : List String) (x : String) : Int :=
  match l.findIdx? (fun y => y = x) with
  | some i => (i : Int)
  | none => -1

/-- JavaScript array indexing `l[i]` together with the `setCurrentStep` it
feeds: reads the element when `i` is in bounds; `dflt` stands for the state
that results when the access yields `undefined` (never reached through the
hook's guarded call sites). -/
def jsGet (l : List String) (i : Int) (dflt : String) : String :=
  if h : 0 ≤ i ∧ i.toNat < l.length then l.get ⟨i.toNat, h.2⟩ else dflt

/-- `const currentStepIndex = STEPS.indexOf(currentStep);` -/
def currentStepIndex (s : WizardStep) : Int := jsIndexOf STEPS s

/-- `const totalSteps = STEPS.length;` -/
def totalSteps : Nat := STEPS.length

/-- `const isFirstStep = currentStepIndex === 0;` -/
def isFirstStep (s : WizardStep) : Bool := currentStepIndex s = 0

/-- `const isLastStep = currentStepIndex === totalSteps - 1;` -/
def isLastStep (s : WizardStep) : Bool :=
  currentStepIndex s = (totalSteps : Int) - 1

/-- `next()`: `if (!isLastStep) setCurrentStep(STEPS[currentStepIndex + 1])`. -/
def next (s : WizardStep) : WizardStep :=
  if isLastStep s then s else jsGet STEPS (currentStepIndex s + 1) s

/-- `back()`: `if (!isFirstStep) setCurrentStep(STEPS[currentStepIndex - 1])`. -/
def back (s : WizardStep) : WizardStep :=
  if isFirstStep s then s else jsGet STEPS (currentStepIndex s - 1) s

/-- `goTo(step: WizardStep | number)`: a numeric argument is applied only when
`step >= 0 && step < totalSteps`; a step-id argument only when
`STEPS.includes(step)`; otherwise the call is silently ignored. -/
def goTo (s : WizardStep) (step : Sum Int WizardStep) : WizardStep :=
  match step with
  | Sum.inl i =>
      if 0 ≤ i ∧ i < (totalSteps : Int) then jsGet STEPS i s else s
  | Sum.inr name => if name ∈ STEPS then name else s

/-- `reset()`: `setCurrentStep(initialStep)`. -/
def reset (initialStep : WizardStep) : WizardStep := initialStep

/-- C8: step-controller boundary behavior — on the initial (first) step
`back()` leaves the step unchanged; on the terminal step `next()` leaves it
unchanged; and `goTo` with a step id not in the known step list, or with an
out-of-range index, leaves the current step unchanged (the operations are
total functions: no exception is possible). -/
theorem useStep_boundary_noop :
    (∀ s : WizardStep, isFirstStep s = true → back s = s) ∧
    (∀ s : WizardStep, isLastStep s = true → next s = s) ∧
    (∀ (s : WizardStep) (name : WizardStep), name ∉ STEPS →
      goTo s (Sum.inr name) = s) ∧
    (∀ (s : WizardStep) (i : Int), ¬ (0 ≤ i ∧ i < (totalSteps : Int)) →
      goTo s (Sum.inl i) = s) := by
  refine ⟨?_, ?_, ?_, ?_⟩
  · intro s h; simp [back, h]
  · intro s h; simp [next, h]
  · intro s name h; simp [goTo, h]
  · intro s i h; simp [goTo, h]

/-- Witness for C8: `back` on "budget" (the initial step), `next` on "review"
(the terminal step), `goTo("unknown-step")` and `goTo(7)` from "map" all
leave the step unchanged. -/
theorem useStep_boundary_noop_witness :
    back "budget" = "budget" ∧ next "review" = "review" ∧
    goTo "map" (Sum.inr "unknown-step") = "map" ∧
    goTo "map" (Sum.inl 7) = "map" :=
  ⟨useStep_boundary_noop.1 "budget" (by decide),
   useStep_boundary_noop.2.1 "review" (by decide),
   useStep_boundary_noop.2.2.1 "map" "unknown-step" (by decide),
   useStep_boundary_noop.2.2.2 "map" 7 (by decide)⟩

/-- A heap of JavaScript `Set<string>` objects: cell contents indexed by
reference, plus the next fresh reference.  This refines the value model above
just enough to express object identity — which `Set` object a method returns
versus which one the store privately owns. -/
structure Heap where
  cells : Nat → Finset String
  next : Nat

/-- Read the contents of the set object at reference `r`. -/
def Heap.read (h : Heap) (r : Nat) : Finset String := h.cells r

/-- Overwrite the contents of the set object at reference `r`. -/
def Heap.write (h : Heap) (r : Nat) (v : Finset String) : Heap :=
  ⟨fun i => if i = r then v else h.cells i, h.next⟩

/-- `new Set(contents)`: allocate a fresh set object, returning its
reference. -/
def Heap.alloc (h : Heap) (v : Finset String) : Nat × Heap :=
  (h.next, ⟨fun i => if i = h.next then v else h.cells i, h.next + 1⟩)

/-- A `SelectionStore` instance at the heap level: it privately owns the set
object `this.selected` at reference `selectedRef`. -/
structure HStore where
  selectedRef : Nat

/-- Well-formedness: the store's owned set object is an allocated cell. -/
def HStore.WF (st : HStore) (h : Heap) : Prop := st.selectedRef < h.next

/-- `isSelected(id)` at the heap level: `this.selected.has(id)`. -/
def HStore.isSelected (st : HStore) (h : Heap) (id : String) : Bool :=
  decide (id ∈ Heap.read h st.selectedRef)

/-- `getSelected(): Set<string> { return new Set(this.selected); }` — copies
the owned set's contents into a freshly allocated set object and returns its
reference. -/
def HStore.getSelected (st : HStore) (h : Heap) : Nat × Heap :=
  Heap.alloc h (Heap.read h st.selectedRef)

/-- A caller mutating a raw `Set` object it holds: `set.add(id)`.  A plain
`Set` carries no listeners, so the mutation performs zero `notifyListeners`
invocations (second component). -/
def jsSetAdd (h : Heap) (r : Nat) (id : String) : Heap × Nat :=
  (Heap.write h r (insert id (Heap.read h r)), 0)

/-- A caller mutating a raw `Set` object it holds: `set.delete(id)`; zero
notifications, as for `jsSetAdd`. -/
def jsSetDelete (h : Heap) (r : Nat) (id : String) : Heap × Nat :=
  (Heap.write h r ((Heap.read h r).erase id), 0)

/-- Writing to a reference other than `r` leaves the cell at `r`
unchanged. -/
theorem Heap.read_write_ne (h : Heap) (r w : Nat) (v : Finset String)
    (hne : r ≠ w) : Heap.read (Heap.write h w v) r = Heap.read h r := by
  simp [Heap.read, Heap.write, hne]

/-- C9: `getSelected()` returns a defensive copy.  For a well-formed store,
the returned set object has the same contents as the store's own set, its
reference is distinct from the store's, and mutating it — adding or deleting
any id — leaves the store's internal selection set and every subsequent
`isSelected` answer unchanged, and produces zero notifications. -/
theorem getSelected_defensive_copy (st : HStore) (h : Heap)
    (hwf : HStore.WF st h) (id x : String) :
    (Heap.read (HStore.getSelected st h).2 (HStore.getSelected st h).1 =
        Heap.read h st.selectedRef) ∧
    ((HStore.getSelected st h).1 ≠ st.selectedRef) ∧
    (Heap.read (jsSetAdd (HStore.getSelected st h).2
          (HStore.getSelected st h).1 id).1 st.selectedRef =
        Heap.read h st.selectedRef ∧
      HStore.isSelected st (jsSetAdd (HStore.getSelected st h).2
          (HStore.getSelected st h).1 id).1 x = HStore.isSelected st h x ∧
      (jsSetAdd (HStore.getSelected st h).2
          (HStore.getSelected st h).1 id).2 = 0) ∧
    (Heap.read (jsSetDelete (HStore.getSelected st h).2
          (HStore.getSelected st h).1 id).1 st.selectedRef =
        Heap.read h st.selectedRef ∧
      HStore.isSelected st (jsSetDelete (HStore.getSelected st h).2
          (HStore.getSelected st h).1 id).1 x = HStore.isSelected st h x ∧
      (jsSetDelete (HStore.getSelected st h).2
          (HStore.getSelected st h).1 id).2 = 0) := by
  have hne : st.selectedRef ≠ h.next := Nat.ne_of_lt hwf
  have hr1 : (HStore.getSelected st h).1 = h.next := rfl
  have hne2 : st.selectedRef ≠ (HStore.getSelected st h).1 := by
    rw [hr1]; exact hne
  have hcopy : Heap.read (HStore.getSelected st h).2 st.selectedRef =
      Heap.read h st.selectedRef := by
    simp [HStore.getSelected, Heap.alloc, Heap.read, hne]
  refine ⟨?_, ?_, ⟨?_, ?_, rfl⟩, ⟨?_, ?_, rfl⟩⟩
  · simp [HStore.getSelected, Heap.alloc, Heap.read]
  · exact hne2.symm
  · rw [jsSetAdd]
    dsimp only
    rw [Heap.read_write_ne _ _ _ _ hne2, hcopy]
  · rw [HStore.isSelected, HStore.isSelected, jsSetAdd]
    dsimp only
    rw [Heap.read_write_ne _ _ _ _ hne2, hcopy]
  · rw [jsSetDelete]
    dsimp only
    rw [Heap.read_write_ne _ _ _ _ hne2, hcopy]
  · rw [HStore.isSelected, HStore.isSelected, jsSetDelete]
    dsimp only
    rw [Heap.read_write_ne _ _ _ _ hne2, hcopy]

/-- Witness for C9: at the one-cell heap owning an empty selection, the
defensive-copy property holds for adding/deleting "A" while querying "A". -/
theorem getSelected_defensive_copy_witness :
    HStore.WF ⟨0⟩ ⟨fun _ => ∅, 1⟩ ∧
    HStore.isSelected ⟨0⟩ (jsSetAdd (HStore.getSelected ⟨0⟩ ⟨fun _ => ∅, 1⟩).2
        (HStore.getSelected ⟨0⟩ ⟨fun _ => ∅, 1⟩).1 "A").1 "A" =
      HStore.isSelected ⟨0⟩ ⟨fun _ => ∅, 1⟩ "A" :=
  ⟨Nat.zero_lt_one,
   (getSelected_defensive_copy ⟨0⟩ ⟨fun _ => ∅, 1⟩ Nat.zero_lt_one "A" "A").2.2.1.2.1⟩
